import Mathlib

/-!
Shallow embedding of the obsidian-hugo-export conversion pipeline
(`src/unnamed/part_000`, class `HugoExportPlugin`).  Strings are modelled by
Lean `String` (logically a list of characters); the JavaScript regular
expression scanners are translated into explicit left-to-right matchers with
the same match/skip semantics; JavaScript truthiness (`undefined`, the empty
string, the number zero and `NaN` are falsy) is made explicit.  Host
collaborators (the Obsidian vault, the EXIF reader, the YAML parser, the
clock) are passed in as oracle functions, mirroring the plugin's external
interfaces; filesystem writes are not observable in any claim and are not
modelled beyond the data that would be written.
-/

/-! ## JavaScript-style helpers -/

/-- Truthiness-based `a || b` for strings: the empty string is falsy. -/
def jsOr (a b : String) : String := if a = "" then b else a

/-- Truthiness-based `o || b` where `o` may be `undefined` (modelled `none`). -/
def jsOrOpt (o : Option String) (b : String) : String :=
  match o with
  | some s => jsOr s b
  | none => b

/-- Model of `s || undefined`: an empty string collapses to `undefined`. -/
def jsUndefIfEmpty (s : String) : Option String := if s = "" then none else some s

/-- Model of `String.prototype.startsWith`, as a structural prefix test. -/
def jsStartsWith (s pre : String) : Bool := pre.data.isPrefixOf s.data

/-- Truthiness of an optional string (absent or empty is falsy). -/
def jsTruthyStr (o : Option String) : Bool :=
  match o with
  | some s => s ≠ ""
  | none => false

/-- Truthiness of an optional number (absent, `NaN` (folded into `none`) or zero
is falsy). -/
def jsTruthyInt (o : Option Int) : Bool :=
  match o with
  | some n => n ≠ 0
  | none => false

/-- ASCII decimal digit. -/
def isDigitChar (c : Char) : Bool := '0' ≤ c && c ≤ '9'

/-- ASCII subset of the JavaScript regex class `\s` (sufficient for the
attribute strings the scanners feed it). -/
def isJsSpace (c : Char) : Bool :=
  c = ' ' || c = '\t' || c = '\n' || c = '\r' || c = '\x0b' || c = '\x0c'

/-- JavaScript regex class `\w`, i.e. `[A-Za-z0-9_]`. -/
def isWordChar (c : Char) : Bool :=
  ('a' ≤ c && c ≤ 'z') || ('A' ≤ c && c ≤ 'Z') || ('0' ≤ c && c ≤ '9') || c = '_'

/-- ASCII lower-casing of one character, the fragment of
`String.prototype.toLowerCase` that the pipeline's inputs reach (every string
it is applied to has already been restricted to ASCII by a replace). -/
def jsToLower (c : Char) : Char :=
  if 'A' ≤ c && c ≤ 'Z' then Char.ofNat (c.toNat + 32) else c

/-- Character-wise lower-casing of a string. -/
def toLowerStr (s : String) : String := String.mk (s.data.map jsToLower)

/-- Numeric value of a run of decimal digits (the action of `parseInt(d, 10)`
on a string already known to match `\d+`). -/
def digitsToNat (l : List Char) : Nat :=
  l.foldl (fun acc c => 10 * acc + (c.toNat - '0'.toNat)) 0

/-- Model of `parseInt(s, 10)`: skip leading whitespace, optional sign, then a
maximal run of decimal digits; `none` models `NaN` (no digits found). -/
def jsParseInt (s : String) : Option Int :=
  let l := s.data.dropWhile isJsSpace
  let core : List Char → Option Nat := fun l2 =>
    let ds := l2.takeWhile isDigitChar
    if ds.isEmpty then none else some (digitsToNat ds)
  match l with
  | '-' :: r => (core r).map (fun n => -(n : Int))
  | '+' :: r => (core r).map (fun n => (n : Int))
  | _ => (core l).map (fun n => (n : Int))

/-- Model of `baseUrl.replace(/\/$/, '')`: drop a single trailing slash. -/
def stripTrailingSlash (s : String) : String :=
  match s.data.reverse with
  | '/' :: rest => String.mk rest.reverse
  | _ => s

/-- Model of `String.prototype.lastIndexOf` for a single character, as an
option instead of the JavaScript `-1` sentinel. -/
def lastIndexOf (l : List Char) (c : Char) : Option Nat :=
  match l.reverse.findIdx? (fun d => d = c) with
  | some i => some (l.length - 1 - i)
  | none => none

/-! ## Data model (the TypeScript interfaces of the plugin) -/

/-- Dimensions parsed from a pipe modifier or from markup attributes. -/
structure ParsedDimensions where
  width : Int
  height : Option Int := none
deriving DecidableEq, Repr

/-- Result of classifying a pipe modifier (`parsePipeContent`). -/
structure ImageMetadata where
  dimensions : Option ParsedDimensions := none
  altText : Option String := none
deriving DecidableEq, Repr

/-- One Obsidian embed found in the body: `![[filename]]` or
`![[filename|pipe]]`. -/
structure ParsedInternalImage where
  filename : String
  pipeContent : Option String := none
deriving DecidableEq, Repr

/-- What `copyAttachment` produces for one resolved attachment. -/
structure AttachmentInfo where
  newFilename : String
  caption : Option String := none
deriving DecidableEq, Repr

/-- Options consumed by `buildFigureShortcode`. -/
structure FigureOptions where
  src : String
  link : Option String := none
  alt : Option String := none
  caption : Option String := none
  width : Option Int := none
  height : Option Int := none
deriving DecidableEq, Repr

/-- The plugin's settings object. -/
structure HugoExportSettings where
  hugoExportPath : String
  hugoAttachmentsPath : String
  hugoAttachmentsUrl : String
  defaultAuthor : String
  enableCloudflareImages : Bool
  siteBaseUrl : String
deriving DecidableEq, Repr

/-- An Obsidian vault file handle (the fields the pipeline reads). -/
structure TFile where
  path : String
  name : String
  basename : String
deriving DecidableEq, Repr

/-- A vault entry: `getAbstractFileByPath` may return a file or a folder, and
only `instanceof TFile` results are used. -/
inductive AbstractFile where
  | tfile (t : TFile)
  | folder (path : String)
deriving DecidableEq, Repr

/-- The content-store collaborators consumed by the core (Obsidian's vault and
metadata cache), as pure oracle functions. -/
structure Vault where
  read : TFile → String
  getAbstractFileByPath : String → Option AbstractFile
  getFirstLinkpathDest : String → String → Option TFile

/-- Frontmatter fields the converter reads from the parsed YAML mapping. -/
inductive TagsValue where
  | arr (entries : List String)
  | str (s : String)
deriving DecidableEq, Repr

/-- The loosely-typed existing frontmatter object, restricted to the four
fields the code consumes. -/
structure Frontmatter where
  title : Option String := none
  date : Option String := none
  author : Option String := none
  tags : Option TagsValue := none
deriving DecidableEq, Repr

/-- JavaScript truthiness of `frontmatter.tags`: arrays are always truthy,
strings are truthy when non-empty. -/
def jsTruthyTags (o : Option TagsValue) : Bool :=
  match o with
  | some (TagsValue.arr _) => true
  | some (TagsValue.str s) => s ≠ ""
  | none => false

/-! ## Leaf functions -/

/-- Source `parsePipeContent`: classify a pipe modifier as dimensions
(`^(\d+)(?:x(\d+))?$`) or alt text; `undefined` gives the empty metadata. -/
def parsePipeContent (pipeContent : Option String) : ImageMetadata :=
  match pipeContent with
  | none => {}
  | some p =>
    let l := p.data
    let w := l.takeWhile isDigitChar
    if w.isEmpty then { altText := some p }
    else
      match l.drop w.length with
      | [] => { dimensions := some { width := (digitsToNat w : Int) } }
      | 'x' :: rest =>
        let h := rest.takeWhile isDigitChar
        if h.isEmpty then { altText := some p }
        else if (rest.drop h.length).isEmpty then
          { dimensions := some { width := (digitsToNat w : Int),
                                 height := some (digitsToNat h : Int) } }
        else { altText := some p }
      | _ => { altText := some p }

/-- Escaping performed on captions: `caption.replace(/"/g, '\\"')`. -/
def escapeCaption (s : String) : String :=
  String.mk (s.data.flatMap (fun c => if c = '"' then ['\\', '"'] else [c]))

/-- Source `buildFigureShortcode`: emit `src, link, alt, caption, width,
height` in that order, skipping falsy values. -/
def buildFigureShortcode (options : FigureOptions) : String :=
  let attrs : List String := ["src=\"" ++ options.src ++ "\""]
  let attrs := match options.link with
    | some l => if l ≠ "" then attrs ++ ["link=\"" ++ l ++ "\""] else attrs
    | none => attrs
  let attrs := match options.alt with
    | some a => if a ≠ "" then attrs ++ ["alt=\"" ++ a ++ "\""] else attrs
    | none => attrs
  let attrs := match options.caption with
    | some cap => if cap ≠ "" then attrs ++ ["caption=\"" ++ escapeCaption cap ++ "\""] else attrs
    | none => attrs
  let attrs := match options.width with
    | some w => if w ≠ 0 then attrs ++ ["width=\"" ++ toString w ++ "\""] else attrs
    | none => attrs
  let attrs := match options.height with
    | some h => if h ≠ 0 then attrs ++ ["height=\"" ++ toString h ++ "\""] else attrs
    | none => attrs
  "\x7b\x7b< figure " ++ String.intercalate " " attrs ++ " >\x7d\x7d"

/-- Source `buildCloudflareImageUrl`. -/
def buildCloudflareImageUrl (settings : HugoExportSettings) (imagePath : String)
    (width : Option Int) : String :=
  let baseUrl := stripTrailingSlash settings.siteBaseUrl
  let transformOptions := "fit=scale-down"
  let transformOptions := match width with
    | some w => if w ≠ 0 then transformOptions ++ ",width=" ++ toString w else transformOptions
    | none => transformOptions
  baseUrl ++ "/cdn-cgi/image/" ++ transformOptions ++ imagePath

/-- Source `generateHugoFilename`, sanitization step:
`basename.replace(/[^a-z0-9-]/gi, '-').toLowerCase()`. -/
def isHugoNameChar (c : Char) : Bool :=
  ('a' ≤ c && c ≤ 'z') || ('A' ≤ c && c ≤ 'Z') || ('0' ≤ c && c ≤ '9') || c = '-'

/-- Character class kept by `copyAttachment`'s sanitizer
(`/[^a-z0-9.-]/gi`), which additionally keeps dots. -/
def isAttachNameChar (c : Char) : Bool := isHugoNameChar c || c = '.'

/-- Replace a character falling outside the kept class with a dash. -/
def sanitizeChar (keep : Char → Bool) (c : Char) : Char := if keep c then c else '-'

/-- The sanitizer inside `generateHugoFilename`: replace, then lower-case. -/
def sanitizeBasename (s : String) : String :=
  String.mk ((s.data.map (sanitizeChar isHugoNameChar)).map jsToLower)

/-- Source `generateHugoFilename`. -/
def generateHugoFilename (basename : String) : String :=
  sanitizeBasename basename ++ ".md"

/-- The sanitizer inside `copyAttachment`:
`attachmentFile.name.replace(/[^a-z0-9.-]/gi, '-').toLowerCase()`. -/
def sanitizeAttachmentName (s : String) : String :=
  String.mk ((s.data.map (sanitizeChar isAttachNameChar)).map jsToLower)

/-! ## Generic left-to-right regex-style scanning

A `tryM` function attempts a match at the head of the character list,
returning the parsed match and the remaining characters; the scanner advances
one character on failure, exactly like a JavaScript global-regex
`String.prototype.replace` / `exec` loop.  Fuel (the input length) makes the
recursion structural; every concrete pattern below consumes at least one
character per successful match, so the fuel never runs out on the wrapper's
inputs. -/

/-- Fuelled replace loop. -/
def jsScanF {μ : Type} (tryM : List Char → Option (μ × List Char))
    (repl : μ → List Char) : Nat → List Char → List Char
  | 0, s => s
  | fuel + 1, s =>
    match s with
    | [] => []
    | c :: rest =>
      match tryM (c :: rest) with
      | some (m, rest2) => repl m ++ jsScanF tryM repl fuel rest2
      | none => c :: jsScanF tryM repl fuel rest

/-- Replace every match of `tryM` in `s` by `repl`. -/
def jsScan {μ : Type} (tryM : List Char → Option (μ × List Char))
    (repl : μ → List Char) (s : List Char) : List Char :=
  jsScanF tryM repl s.length s

/-- Fuelled match-collection loop (the `exec` iteration). -/
def jsMatchListF {μ : Type} (tryM : List Char → Option (μ × List Char)) :
    Nat → List Char → List μ
  | 0, _ => []
  | fuel + 1, s =>
    match s with
    | [] => []
    | c :: rest =>
      match tryM (c :: rest) with
      | some (m, rest2) => m :: jsMatchListF tryM fuel rest2
      | none => jsMatchListF tryM fuel rest

/-- All matches of `tryM` in `s`, left to right, non-overlapping. -/
def jsMatchList {μ : Type} (tryM : List Char → Option (μ × List Char))
    (s : List Char) : List μ :=
  jsMatchListF tryM s.length s

/-! ## The three image-reference grammars -/

/-- A match of the internal-embed pattern `!\[\[([^\]|]+)(?:\|([^\]]+))?\]\]`,
carrying the raw matched text for the leave-unchanged case. -/
structure EmbedMatch where
  raw : List Char
  name : List Char
  pipe : Option (List Char)
deriving DecidableEq, Repr

/-- Attempt the internal-embed pattern at the head of the input. -/
def embedTryMatch (s : List Char) : Option (EmbedMatch × List Char) :=
  match s with
  | '!' :: '[' :: '[' :: rest =>
    let name := rest.takeWhile (fun c => c ≠ ']' && c ≠ '|')
    if name.isEmpty then none
    else
      match rest.drop name.length with
      | ']' :: ']' :: rest2 =>
        some (⟨'!' :: '[' :: '[' :: name ++ [']', ']'], name, none⟩, rest2)
      | '|' :: restP =>
        let pipe := restP.takeWhile (fun c => c ≠ ']')
        if pipe.isEmpty then none
        else
          match restP.drop pipe.length with
          | ']' :: ']' :: rest2 =>
            some (⟨'!' :: '[' :: '[' :: name ++ '|' :: pipe ++ [']', ']'],
                   name, some pipe⟩, rest2)
          | _ => none
      | _ => none
  | _ => none

/-- A match of the external-image pattern `!\[([^\]]*)\]\(([^)]+)\)`. -/
structure ExtMatch where
  raw : List Char
  altOrDims : List Char
  url : List Char
deriving DecidableEq, Repr

/-- Attempt the external-image pattern at the head of the input. -/
def extTryMatch (s : List Char) : Option (ExtMatch × List Char) :=
  match s with
  | '!' :: '[' :: rest =>
    let alt := rest.takeWhile (fun c => c ≠ ']')
    match rest.drop alt.length with
    | ']' :: '(' :: restU =>
      let url := restU.takeWhile (fun c => c ≠ ')')
      if url.isEmpty then none
      else
        match restU.drop url.length with
        | ')' :: rest2 =>
          some (⟨'!' :: '[' :: alt ++ ']' :: '(' :: url ++ [')'], alt, url⟩, rest2)
        | _ => none
    | _ => none
  | _ => none

/-- A match of the raw-markup pattern `<img\s+([^>]*)\/?>` (case-insensitive
on the literal `img`); the captured attribute string is everything up to the
closing angle bracket, including any trailing slash. -/
structure ImgMatch where
  raw : List Char
  attributesStr : List Char
deriving DecidableEq, Repr

/-- Attempt the raw-markup image pattern at the head of the input. -/
def imgTryMatch (s : List Char) : Option (ImgMatch × List Char) :=
  match s with
  | '<' :: c1 :: c2 :: c3 :: rest =>
    if jsToLower c1 = 'i' && jsToLower c2 = 'm' && jsToLower c3 = 'g' then
      let ws := rest.takeWhile isJsSpace
      if ws.isEmpty then none
      else
        let restA := rest.drop ws.length
        let attrs := restA.takeWhile (fun c => c ≠ '>')
        match restA.drop attrs.length with
        | '>' :: rest2 =>
          some (⟨'<' :: c1 :: c2 :: c3 :: ws ++ attrs ++ ['>'], attrs⟩, rest2)
        | _ => none
    else none
  | _ => none

/-! ## Inline tag scanning (`extractTags` body loop) -/

/-- Character class of the inline-tag pattern (letters, digits, underscore,
slash and dash, i.e. the class of `#([a-zA-Z0-9_` slash `-]+)`). -/
def isTagChar (c : Char) : Bool :=
  ('a' ≤ c && c ≤ 'z') || ('A' ≤ c && c ≤ 'Z') || ('0' ≤ c && c ≤ '9') ||
    c = '_' || c = '/' || c = '-'

/-- Fuelled `exec` loop for the inline-tag pattern, tracking the absolute
match index; each entry is the match position (of the `#`) and the captured
tag characters. -/
def tagMatchesF : Nat → List Char → Nat → List (Nat × List Char)
  | 0, _, _ => []
  | fuel + 1, s, i =>
    match s with
    | [] => []
    | c :: rest =>
      if c = '#' then
        let run := rest.takeWhile isTagChar
        if run.isEmpty then tagMatchesF fuel rest (i + 1)
        else (i, run) :: tagMatchesF fuel (rest.drop run.length) (i + 1 + run.length)
      else tagMatchesF fuel rest (i + 1)

/-- All inline-tag matches of a body with their absolute positions. -/
def tagMatches (body : List Char) : List (Nat × List Char) :=
  tagMatchesF body.length body 0

/-- The inclusion test of the body loop in `extractTags`:
`tagMatch.index === 0 || body[tagMatch.index-1] !== '\n' ||
body[tagMatch.index + tagMatch[0].length] !== ' '` (out-of-range access gives
`undefined`, which differs from any character). -/
def includeTagCond (body : List Char) (i : Nat) (tagLen : Nat) : Bool :=
  i == 0 || !(body.get? (i - 1) == some '\n') || !(body.get? (i + 1 + tagLen) == some ' ')

/-- JavaScript `Set.prototype.add` on an insertion-ordered duplicate-free
list. -/
def jsSetAdd (l : List String) (t : String) : List String :=
  if t ∈ l then l else l ++ [t]

/-- Structural lexicographic comparison of character lists by code point,
the order used by the default `Array.prototype.sort()` comparator (identical
to the code-unit order on the ASCII strings tag collection produces). -/
def strLeB : List Char → List Char → Bool
  | [], _ => true
  | _ :: _, [] => false
  | c :: as, d :: bs => if c = d then strLeB as bs else decide (c < d)

/-- Lexicographic order on strings as a decidable relation. -/
def strLe (a b : String) : Prop := strLeB a.data b.data = true

instance : DecidableRel strLe := fun _ _ => instDecidableEqBool _ _

/-- The frontmatter part of `extractTags`: the `if (frontmatter.tags)` block
(arrays are truthy even when empty, a scalar string only when non-empty; each
sequence entry is added only when truthy, i.e. non-empty). -/
def fmTagsFold (frontmatter : Frontmatter) (tagSet : List String) : List String :=
  if jsTruthyTags frontmatter.tags then
    match frontmatter.tags with
    | some (TagsValue.arr ts) =>
      ts.foldl (fun l t => if t ≠ "" then jsSetAdd l t else l) tagSet
    | some (TagsValue.str t) => jsSetAdd tagSet t
    | none => tagSet
  else tagSet

/-- The inline part of `extractTags`: the body `exec` loop with the
heading-exclusion condition. -/
def inlineTagsFold (body : String) (tagSet : List String) : List String :=
  (tagMatches body.data).foldl
    (fun l m =>
      if includeTagCond body.data m.fst m.snd.length then jsSetAdd l (String.mk m.snd)
      else l)
    tagSet

/-- Source `extractTags`: frontmatter tags (sequence entries when truthy, a
scalar when truthy), then inline body tags passing the heading filter;
deduplicated, sorted ascending.  The sort models `Array.prototype.sort()`
restricted to the code-point order (identical on the ASCII tags the scanner
can produce). -/
def extractTags (frontmatter : Frontmatter) (body : String) : List String :=
  let tagSet : List String := []
  let tagSet := fmTagsFold frontmatter tagSet
  let tagSet := inlineTagsFold body tagSet
  List.insertionSort strLe tagSet

/-- The multiset of tags the frontmatter contributes, stated directly: a
sequence contributes its non-empty entries, a scalar contributes itself when
non-empty. -/
def fmTagsList (frontmatter : Frontmatter) : List String :=
  match frontmatter.tags with
  | some (TagsValue.arr ts) => ts.filter (fun t => t ≠ "")
  | some (TagsValue.str s) => if s = "" then [] else [s]
  | none => []

/-! ## Frontmatter extraction and document assembly (`convertToHugo`) -/

/-- Search for the earliest occurrence of the closing delimiter `\n---\n`,
returning the characters before it and the characters after it (the lazy
group of `^---\n([\s\S]*?)\n---\n`). -/
def findFmDelim : List Char → Option (List Char × List Char)
  | [] => none
  | c :: rest =>
    match c :: rest with
    | '\n' :: '-' :: '-' :: '-' :: '\n' :: after => some ([], after)
    | _ =>
      match findFmDelim rest with
      | some (pre, after) => some (c :: pre, after)
      | none => none

/-- Split off a leading frontmatter block per `^---\n([\s\S]*?)\n---\n`:
returns the block contents and the remaining body, or `none` when the
document does not start with a frontmatter delimiter block. -/
def fmSplit (s : List Char) : Option (List Char × List Char) :=
  match s with
  | '-' :: '-' :: '-' :: '\n' :: rest => findFmDelim rest
  | _ => none

/-- Source `convertToHugo`.  `yamlLoad` stands for `js-yaml`'s `load` (with
`none` covering both a parse failure and a null document, which the code
folds into the empty mapping), and `now` stands for
`new Date().toISOString()`. -/
def convertToHugo (yamlLoad : String → Option Frontmatter) (now : String)
    (settings : HugoExportSettings) (content : String) (basename : String) : String :=
  let split := fmSplit content.data
  let body := match split with
    | some (_, after) => String.mk after
    | none => content
  let existingFrontmatter : Frontmatter := match split with
    | some (block, _) =>
      match yamlLoad (String.mk block) with
      | some fm => fm
      | none => {}
    | none => {}
  let tags := extractTags existingFrontmatter body
  let date := jsOrOpt existingFrontmatter.date now
  let title := jsOrOpt existingFrontmatter.title basename
  let author := jsOrOpt existingFrontmatter.author (jsOr settings.defaultAuthor "Unknown")
  let hugoFrontmatter :=
    "---\ntitle: \"" ++ title ++ "\"\ndate: " ++ date ++ "\nauthor: " ++ author ++
      "\ndraft: false\n"
  let hugoFrontmatter :=
    if tags.length > 0 then
      hugoFrontmatter ++ "tags:\n" ++ String.join (tags.map (fun tag => "  - " ++ tag ++ "\n"))
    else hugoFrontmatter
  let hugoFrontmatter := hugoFrontmatter ++ "---\n\n"
  hugoFrontmatter ++ body

/-! ## Attachment discovery, resolution and copying -/

/-- Source `findAttachments`: every internal embed of the body, in order,
duplicates included. -/
def findAttachments (content : String) : List ParsedInternalImage :=
  (jsMatchList embedTryMatch content.data).map
    (fun m => { filename := String.mk m.name, pipeContent := m.pipe.map String.mk })

/-- Keep only `instanceof TFile` results of a store lookup. -/
def asTFile (o : Option AbstractFile) : Option TFile :=
  match o with
  | some (AbstractFile.tfile t) => some t
  | _ => none

/-- Test of `/\.[^.]+$/`: the name ends with a dot followed by at least one
non-dot character. -/
def hasExtension (filename : String) : Bool :=
  match filename.data.reverse with
  | [] => false
  | c :: rest => c ≠ '.' && (c :: rest).contains '.'

/-- The extension list tried by `resolveAttachmentPath`, in source order. -/
def resolveExtensions : List String :=
  ["png", "jpg", "jpeg", "gif", "webp", "svg", "pdf"]

/-- The `for (const ext of extensions)` retry loop of
`resolveAttachmentPath`. -/
def tryExtensions (v : Vault) (filename : String) : List String → Option TFile
  | [] => none
  | ext :: rest =>
    match asTFile (v.getAbstractFileByPath (filename ++ "." ++ ext)) with
    | some t => some t
    | none => tryExtensions v filename rest

/-- Source `resolveAttachmentPath`: exact lookup, then (extension-less names
only) the extension retry loop, then Obsidian link resolution. -/
def resolveAttachmentPath (v : Vault) (filename : String) (sourceFile : TFile) :
    Option TFile :=
  match asTFile (v.getAbstractFileByPath filename) with
  | some t => some t
  | none =>
    match (if hasExtension filename then none else tryExtensions v filename resolveExtensions) with
    | some t => some t
    | none => v.getFirstLinkpathDest filename sourceFile.path

/-- Source `copyAttachment`, restricted to its observable data: the binary
read plus EXIF caption extraction is the `captionOf` oracle
(`extractExifCaption` never throws; failures yield `none`), and the sanitized
destination name is computed as in the source.  The filesystem write carries
no information beyond the bytes read.  -/
def copyAttachment (captionOf : TFile → Option String) (attachmentFile : TFile) :
    AttachmentInfo :=
  { newFilename := sanitizeAttachmentName attachmentFile.name,
    caption := captionOf attachmentFile }

/-- JavaScript `Map.prototype.set`: overwrite in place, else append. -/
def mapSet (m : List (String × AttachmentInfo)) (k : String) (v : AttachmentInfo) :
    List (String × AttachmentInfo) :=
  match m with
  | [] => [(k, v)]
  | (k2, v2) :: rest => if k2 = k then (k, v) :: rest else (k2, v2) :: mapSet rest k v

/-- JavaScript `Map.prototype.get` as an option. -/
def mapGet (m : List (String × AttachmentInfo)) (k : String) : Option AttachmentInfo :=
  match m with
  | [] => none
  | (k2, v) :: rest => if k2 = k then some v else mapGet rest k

/-- State threaded through the attachment loop of `exportToHugo`: the
`attachmentMap`, the list of `copyAttachment` invocations (by source name, in
order) and the list of not-found warnings. -/
structure AttachPhaseResult where
  map : List (String × AttachmentInfo)
  copies : List String
  warnings : List String
deriving DecidableEq, Repr

/-- The `for (const attachment of attachments)` loop of `exportToHugo`. -/
def attachLoop (v : Vault) (captionOf : TFile → Option String) (sourceFile : TFile) :
    List ParsedInternalImage → AttachPhaseResult → AttachPhaseResult
  | [], r => r
  | a :: rest, r =>
    match resolveAttachmentPath v a.filename sourceFile with
    | some tf =>
      attachLoop v captionOf sourceFile rest
        { r with map := mapSet r.map a.filename (copyAttachment captionOf tf),
                 copies := r.copies ++ [a.filename] }
    | none =>
      attachLoop v captionOf sourceFile rest
        { r with warnings := r.warnings ++ [a.filename] }

/-- The attachment resolve-and-copy phase of `exportToHugo`. -/
def attachPhase (v : Vault) (captionOf : TFile → Option String) (sourceFile : TFile)
    (content : String) : AttachPhaseResult :=
  attachLoop v captionOf sourceFile (findAttachments content) ⟨[], [], []⟩

/-! ## The three reference rewriters -/

/-- The figure options object built by the `convertAttachmentLinks` callback
for a resolved attachment. -/
def embedFigureOptions (settings : HugoExportSettings) (info : AttachmentInfo)
    (pipeContent : Option String) (hugoImagePath : String) : FigureOptions :=
  let metadata := parsePipeContent pipeContent
  let directUrl := hugoImagePath ++ "/" ++ info.newFilename
  let srcLink : String × Option String :=
    if settings.enableCloudflareImages && settings.siteBaseUrl ≠ "" then
      (buildCloudflareImageUrl settings directUrl
         (metadata.dimensions.map ParsedDimensions.width),
       some (stripTrailingSlash settings.siteBaseUrl ++ directUrl))
    else (directUrl, none)
  { src := srcLink.1,
    link := srcLink.2,
    alt := metadata.altText,
    caption := info.caption,
    width := if settings.enableCloudflareImages then none
             else metadata.dimensions.map ParsedDimensions.width,
    height := if settings.enableCloudflareImages then none
              else metadata.dimensions.bind ParsedDimensions.height }

/-- The replacement callback of `convertAttachmentLinks`: an unresolved name
leaves the matched text unchanged. -/
def embedReplace (settings : HugoExportSettings)
    (attachmentMap : List (String × AttachmentInfo)) (hugoImagePath : String)
    (m : EmbedMatch) : List Char :=
  match mapGet attachmentMap (String.mk m.name) with
  | none => m.raw
  | some info =>
    (buildFigureShortcode
      (embedFigureOptions settings info (m.pipe.map String.mk) hugoImagePath)).data

/-- Source `convertAttachmentLinks`. -/
def convertAttachmentLinks (settings : HugoExportSettings) (content : String)
    (attachmentMap : List (String × AttachmentInfo)) (hugoImagePath : String) : String :=
  String.mk (jsScan embedTryMatch (embedReplace settings attachmentMap hugoImagePath) content.data)

/-- The figure options object built by the `convertExternalImages` callback
once alt text and dimensions have been separated. -/
def extFigureOptions (settings : HugoExportSettings) (alt : Option String)
    (dimensions : Option ParsedDimensions) (url : String) : FigureOptions :=
  let srcLink : String × Option String :=
    if settings.enableCloudflareImages && settings.siteBaseUrl ≠ "" then
      (buildCloudflareImageUrl settings ("/" ++ url) (dimensions.map ParsedDimensions.width),
       some url)
    else (url, none)
  { src := srcLink.1,
    link := srcLink.2,
    alt := alt,
    width := if settings.enableCloudflareImages then none
             else dimensions.map ParsedDimensions.width,
    height := if settings.enableCloudflareImages then none
              else dimensions.bind ParsedDimensions.height }

/-- The replacement callback of `convertExternalImages`: skip
already-processed directives and anchors, split a trailing pipe segment of
the alt text into dimensions when it parses as such. -/
def extReplace (settings : HugoExportSettings) (m : ExtMatch) : List Char :=
  let url := String.mk m.url
  if jsStartsWith url "\x7b\x7b" || jsStartsWith url "#" then m.raw
  else
    let altOrDims := String.mk m.altOrDims
    let altDims : Option String × Option ParsedDimensions :=
      match lastIndexOf m.altOrDims '|' with
      | some pipeIndex =>
        let possibleDims := String.mk (m.altOrDims.drop (pipeIndex + 1))
        let metadata := parsePipeContent (some possibleDims)
        match metadata.dimensions with
        | some d => (jsUndefIfEmpty (String.mk (m.altOrDims.take pipeIndex)), some d)
        | none => (jsUndefIfEmpty altOrDims, none)
      | none => (jsUndefIfEmpty altOrDims, none)
    (buildFigureShortcode (extFigureOptions settings altDims.1 altDims.2 url)).data

/-- Source `convertExternalImages`. -/
def convertExternalImages (settings : HugoExportSettings) (content : String) : String :=
  String.mk (jsScan extTryMatch (extReplace settings) content.data)

/-! ## Raw-markup rewriter (`convertHtmlImages`) -/

/-- Attempt the attribute pattern
`(\w+)\s*=\s*(?:"([^"]*)"|'([^']*)'|(\S+))` at the head of the attribute
string, returning name, value and the rest.  When a quoted branch finds no
closing quote the bare branch takes over starting at the quote character,
as regex alternation backtracking does. -/
def attrTryMatch (s : List Char) : Option ((List Char × List Char) × List Char) :=
  match s with
  | c :: rest =>
    if isWordChar c then
      let name := (c :: rest).takeWhile isWordChar
      let rest1 := (c :: rest).drop name.length
      let ws1 := rest1.takeWhile isJsSpace
      match rest1.drop ws1.length with
      | '=' :: rest2 =>
        let ws2 := rest2.takeWhile isJsSpace
        let rest3 := rest2.drop ws2.length
        let bare : Option ((List Char × List Char) × List Char) :=
          let v := rest3.takeWhile (fun d => !isJsSpace d)
          if v.isEmpty then none else some ((name, v), rest3.drop v.length)
        match rest3 with
        | '"' :: restV =>
          let v := restV.takeWhile (fun d => d ≠ '"')
          (match restV.drop v.length with
           | '"' :: rest4 => some ((name, v), rest4)
           | _ => bare)
        | '\'' :: restV =>
          let v := restV.takeWhile (fun d => d ≠ '\'')
          (match restV.drop v.length with
           | '\'' :: rest4 => some ((name, v), rest4)
           | _ => bare)
        | _ => bare
      | _ => none
    else none
  | [] => none

/-- The attribute `exec` loop of `convertHtmlImages`, with the object
assignment `attributes[name] = value` (last write wins) folded over the
matches; attribute names are lower-cased. -/
def parseImgAttributes (attributesStr : List Char) : List (String × String) :=
  (jsMatchList attrTryMatch attributesStr).foldl
    (fun obj nv =>
      let name := toLowerStr (String.mk nv.1)
      let value := String.mk nv.2
      (obj.filter (fun p => p.1 ≠ name)) ++ [(name, value)])
    []

/-- Lookup in the parsed attribute object. -/
def objGet (obj : List (String × String)) (k : String) : Option String :=
  (obj.find? (fun p => p.1 = k)).map Prod.snd

/-- The replacement callback of `convertHtmlImages`: a tag without a truthy
`src` attribute is left unchanged. -/
def imgReplace (settings : HugoExportSettings) (m : ImgMatch) : List Char :=
  let attributes := parseImgAttributes m.attributesStr
  match objGet attributes "src" with
  | none => m.raw
  | some imgSrc =>
    if imgSrc = "" then m.raw
    else
      let alt := objGet attributes "alt"
      let width : Option Int :=
        match objGet attributes "width" with
        | some w => if w ≠ "" then jsParseInt w else none
        | none => none
      let height : Option Int :=
        match objGet attributes "height" with
        | some h => if h ≠ "" then jsParseInt h else none
        | none => none
      let title := objGet attributes "title"
      let srcLink : String × Option String :=
        if settings.enableCloudflareImages && settings.siteBaseUrl ≠ "" then
          let isExternal := jsStartsWith imgSrc "http://" || jsStartsWith imgSrc "https://"
          if isExternal then
            (buildCloudflareImageUrl settings ("/" ++ imgSrc) width, some imgSrc)
          else
            let absPath := if jsStartsWith imgSrc "/" then imgSrc else "/" ++ imgSrc
            (buildCloudflareImageUrl settings absPath width,
             some (stripTrailingSlash settings.siteBaseUrl ++ absPath))
        else (imgSrc, none)
      (buildFigureShortcode
        { src := srcLink.1,
          link := srcLink.2,
          alt := alt,
          caption := title,
          width := if settings.enableCloudflareImages then none else width,
          height := if settings.enableCloudflareImages then none else height }).data

/-- Source `convertHtmlImages`. -/
def convertHtmlImages (settings : HugoExportSettings) (content : String) : String :=
  String.mk (jsScan imgTryMatch (imgReplace settings) content.data)

/-! ## The export pipeline (`exportToHugo`) -/

/-- The content transformation performed by `exportToHugo`: `none` models the
early return when no export path is configured; otherwise the produced
document text together with the attachment-phase observations.  Directory
creation and the final file write are outside the observable data. -/
def exportToHugoContent (settings : HugoExportSettings) (v : Vault)
    (captionOf : TFile → Option String) (yamlLoad : String → Option Frontmatter)
    (now : String) (file : TFile) : Option (String × AttachPhaseResult) :=
  if settings.hugoExportPath = "" then none
  else
    let content := v.read file
    let phase : AttachPhaseResult × String :=
      if settings.hugoAttachmentsPath ≠ "" then
        let apr := attachPhase v captionOf file content
        (apr, convertAttachmentLinks settings content apr.map settings.hugoAttachmentsUrl)
      else (⟨[], [], []⟩, content)
    let content := phase.2
    let content := convertExternalImages settings content
    let content := convertHtmlImages settings content
    let hugoContent := convertToHugo yamlLoad now settings content file.basename
    some (hugoContent, phase.1)

/-- Fixture: a vault holding one note with the given text and no other
entries. -/
def emptyVault (content : String) : Vault :=
  ⟨fun _ => content, fun _ => none, fun _ _ => none⟩

/-- Fixture: a vault whose note embeds `a.png` twice and whose store resolves
exactly the path `a.png`. -/
def vaultWithAPng : Vault :=
  ⟨fun _ => "![[a.png]] ![[a.png]]",
   fun p => if p = "a.png" then some (AbstractFile.tfile ⟨"a.png", "a.png", "a"⟩) else none,
   fun _ _ => none⟩

/-! ## Order and character facts -/

theorem charLe_iff (a b : Char) : a ≤ b ↔ a.toNat ≤ b.toNat := Iff.rfl

theorem charLt_iff (a b : Char) : a < b ↔ a.toNat < b.toNat := Iff.rfl

theorem charEq_iff (a b : Char) : a = b ↔ a.toNat = b.toNat := by
  constructor
  · intro h; rw [h]
  · intro h
    cases a with
    | mk v hv =>
      cases b with
      | mk w hw =>
        simp only [Char.toNat] at h
        congr 1
        exact UInt32.toNat.inj h

theorem toNat_ofNat_valid (n : Nat) (h : n < 55296) : (Char.ofNat n).toNat = n := by
  unfold Char.ofNat
  rw [dif_pos (Or.inl h : Nat.isValidChar n)]
  simp [Char.ofNatAux, Char.toNat, UInt32.toNat, UInt32.ofNat']

theorem strLeB_total (a b : List Char) : strLeB a b = true ∨ strLeB b a = true := by
  induction a generalizing b with
  | nil => left; rfl
  | cons c as ih =>
    cases b with
    | nil => right; rfl
    | cons d bs =>
      by_cases hcd : c = d
      · subst hcd
        rcases ih bs with h | h
        · left; simpa [strLeB] using h
        · right; simpa [strLeB] using h
      · have hne2 : d ≠ c := fun h => hcd h.symm
        have hor : c < d ∨ d < c := by
          rw [charLt_iff, charLt_iff]
          have := (charEq_iff c d).not.mp hcd
          omega
        rcases hor with h | h
        · left; simp [strLeB, hcd, h]
        · right; simp [strLeB, hne2, h]

theorem strLeB_trans (a b c : List Char) (h1 : strLeB a b = true)
    (h2 : strLeB b c = true) : strLeB a c = true := by
  induction a generalizing b c with
  | nil => rfl
  | cons x as ih =>
    cases b with
    | nil => simp [strLeB] at h1
    | cons y bs =>
      cases c with
      | nil => simp [strLeB] at h2
      | cons z cs =>
        by_cases hxy : x = y
        · subst hxy
          simp only [strLeB, if_pos rfl] at h1
          by_cases hyz : x = z
          · subst hyz
            simp only [strLeB, if_pos rfl] at h2 ⊢
            exact ih bs cs h1 h2
          · simp only [strLeB, if_neg hyz] at h2 ⊢
            exact h2
        · simp only [strLeB, if_neg hxy] at h1
          by_cases hyz : y = z
          · subst hyz
            simp only [strLeB, if_neg hxy]
            exact h1
          · simp only [strLeB, if_neg hyz] at h2
            have hlt1 : x < y := of_decide_eq_true h1
            have hlt2 : y < z := of_decide_eq_true h2
            have hxz : x < z := by
              rw [charLt_iff] at hlt1 hlt2 ⊢
              omega
            have hxzne : x ≠ z := by
              intro he
              rw [charLt_iff] at hxz
              rw [(charEq_iff x z).mp he] at hxz
              omega
            simp [strLeB, hxzne, hxz]

instance : IsTotal String strLe := ⟨fun a b => strLeB_total a.data b.data⟩

instance : IsTrans String strLe := ⟨fun a b c => strLeB_trans a.data b.data c.data⟩

/-! ## Scanner and set lemmas -/

theorem jsScanF_of_nil {μ : Type} (tryM : List Char → Option (μ × List Char))
    (repl : μ → List Char) :
    ∀ fuel s, jsMatchListF tryM fuel s = [] → jsScanF tryM repl fuel s = s := by
  intro fuel
  induction fuel with
  | zero => intro s _; rfl
  | succ n ih =>
    intro s h
    cases s with
    | nil => rfl
    | cons c rest =>
      cases htry : tryM (c :: rest) with
      | some p =>
        exfalso
        rw [jsMatchListF, htry] at h
        cases h
      | none =>
        rw [jsMatchListF, htry] at h
        rw [jsScanF, htry]
        rw [ih rest h]

theorem jsScan_of_nil {μ : Type} (tryM : List Char → Option (μ × List Char))
    (repl : μ → List Char) (s : List Char) (h : jsMatchList tryM s = []) :
    jsScan tryM repl s = s :=
  jsScanF_of_nil tryM repl s.length s h

theorem mem_jsSetAdd (l : List String) (t x : String) :
    x ∈ jsSetAdd l t ↔ x ∈ l ∨ x = t := by
  unfold jsSetAdd
  by_cases h : t ∈ l
  · simp only [if_pos h]
    constructor
    · intro hx; exact Or.inl hx
    · intro hx
      rcases hx with hx | hx
      · exact hx
      · rw [hx]; exact h
  · simp [if_neg h, List.mem_append]

theorem nodup_jsSetAdd (l : List String) (t : String) (h : l.Nodup) :
    (jsSetAdd l t).Nodup := by
  unfold jsSetAdd
  by_cases ht : t ∈ l
  · simpa [if_pos ht] using h
  · rw [if_neg ht]
    simp [List.nodup_append, h, ht]

theorem mem_foldl_jsSetAdd {α : Type} (q : α → Prop) [DecidablePred q] (g : α → String)
    (ms : List α) (init : List String) (x : String) :
    x ∈ ms.foldl (fun l m => if q m then jsSetAdd l (g m) else l) init ↔
      x ∈ init ∨ ∃ m ∈ ms, q m ∧ g m = x := by
  induction ms generalizing init with
  | nil => simp
  | cons a rest ih =>
    rw [List.foldl_cons, ih]
    by_cases hq : q a
    · rw [if_pos hq, mem_jsSetAdd]
      constructor
      · intro h
        rcases h with (h | h) | h
        · exact Or.inl h
        · exact Or.inr ⟨a, List.mem_cons_self a rest, hq, h.symm⟩
        · rcases h with ⟨m, hm, hqm, hgm⟩
          exact Or.inr ⟨m, List.mem_cons_of_mem a hm, hqm, hgm⟩
      · intro h
        rcases h with h | ⟨m, hm, hqm, hgm⟩
        · exact Or.inl (Or.inl h)
        · rcases List.mem_cons.mp hm with hma | hmr
          · subst hma; exact Or.inl (Or.inr hgm.symm)
          · exact Or.inr ⟨m, hmr, hqm, hgm⟩
    · rw [if_neg hq]
      constructor
      · intro h
        rcases h with h | ⟨m, hm, hqm, hgm⟩
        · exact Or.inl h
        · exact Or.inr ⟨m, List.mem_cons_of_mem a hm, hqm, hgm⟩
      · intro h
        rcases h with h | ⟨m, hm, hqm, hgm⟩
        · exact Or.inl h
        · rcases List.mem_cons.mp hm with hma | hmr
          · subst hma; exact absurd hqm hq
          · exact Or.inr ⟨m, hmr, hqm, hgm⟩

theorem nodup_foldl_jsSetAdd {α : Type} (q : α → Prop) [DecidablePred q] (g : α → String)
    (ms : List α) (init : List String) (h : init.Nodup) :
    (ms.foldl (fun l m => if q m then jsSetAdd l (g m) else l) init).Nodup := by
  induction ms generalizing init with
  | nil => exact h
  | cons a rest ih =>
    rw [List.foldl_cons]
    by_cases hq : q a
    · rw [if_pos hq]; exact ih _ (nodup_jsSetAdd _ _ h)
    · rw [if_neg hq]; exact ih _ h

/-! ## Attachment-phase lemmas -/

theorem mapGet_mapSet (m : List (String × AttachmentInfo)) (k : String)
    (v : AttachmentInfo) (q : String) :
    mapGet (mapSet m k v) q = if q = k then some v else mapGet m q := by
  induction m with
  | nil =>
    by_cases h : k = q
    · subst h; simp [mapSet, mapGet]
    · have h2 : ¬q = k := fun he => h he.symm
      simp [mapSet, mapGet, h, h2]
  | cons p rest ih =>
    obtain ⟨k3, v3⟩ := p
    by_cases h3 : k3 = k
    · subst h3
      rw [show mapSet ((k3, v3) :: rest) k3 v = (k3, v) :: rest from by simp [mapSet]]
      by_cases h : k3 = q
      · subst h; simp [mapGet]
      · have h2 : ¬q = k3 := fun he => h he.symm
        simp [mapGet, h, h2]
    · rw [show mapSet ((k3, v3) :: rest) k v = (k3, v3) :: mapSet rest k v from by
        simp [mapSet, h3]]
      by_cases h : k3 = q
      · subst h
        have h2 : ¬k3 = k := h3
        simp [mapGet, h2]
      · have h2 : ¬q = k3 := fun he => h he.symm
        simp [mapGet, h, ih]

theorem attachLoop_copies (v : Vault) (captionOf : TFile → Option String)
    (sourceFile : TFile) :
    ∀ (l : List ParsedInternalImage) (r : AttachPhaseResult),
      (attachLoop v captionOf sourceFile l r).copies =
        r.copies ++
          (l.filter (fun a => (resolveAttachmentPath v a.filename sourceFile).isSome)).map
            ParsedInternalImage.filename := by
  intro l
  induction l with
  | nil => intro r; simp [attachLoop]
  | cons a rest ih =>
    intro r
    cases hres : resolveAttachmentPath v a.filename sourceFile with
    | some tf =>
      rw [attachLoop, hres, ih]
      simp [List.filter_cons, hres]
    | none =>
      rw [attachLoop, hres, ih]
      simp [List.filter_cons, hres]

theorem attachLoop_warnings (v : Vault) (captionOf : TFile → Option String)
    (sourceFile : TFile) :
    ∀ (l : List ParsedInternalImage) (r : AttachPhaseResult),
      (attachLoop v captionOf sourceFile l r).warnings =
        r.warnings ++
          (l.filter (fun a => (resolveAttachmentPath v a.filename sourceFile).isNone)).map
            ParsedInternalImage.filename := by
  intro l
  induction l with
  | nil => intro r; simp [attachLoop]
  | cons a rest ih =>
    intro r
    cases hres : resolveAttachmentPath v a.filename sourceFile with
    | some tf =>
      rw [attachLoop, hres, ih]
      simp [List.filter_cons, hres]
    | none =>
      rw [attachLoop, hres, ih]
      simp [List.filter_cons, hres]

theorem attachLoop_map_get (v : Vault) (captionOf : TFile → Option String)
    (sourceFile : TFile) :
    ∀ (l : List ParsedInternalImage) (r : AttachPhaseResult) (name : String),
      mapGet (attachLoop v captionOf sourceFile l r).map name =
        if l.any (fun a => a.filename == name) &&
            (resolveAttachmentPath v name sourceFile).isSome then
          (resolveAttachmentPath v name sourceFile).map (copyAttachment captionOf)
        else mapGet r.map name := by
  intro l
  induction l with
  | nil => intro r name; simp [attachLoop]
  | cons a rest ih =>
    intro r name
    cases hres : resolveAttachmentPath v a.filename sourceFile with
    | some tf =>
      rw [attachLoop, hres, ih]
      by_cases hname : a.filename = name
      · subst hname
        rw [hres]
        by_cases hrest : rest.any (fun a2 => a2.filename == a.filename) = true
        · simp [hrest, hres]
        · simp only [Bool.not_eq_true] at hrest
          simp [hrest, mapGet_mapSet, hres]
      · have hbeq : (a.filename == name) = false := beq_eq_false_iff_ne.mpr hname
        have hne2 : name ≠ a.filename := fun h => hname h.symm
        simp [List.any_cons, hbeq, mapGet_mapSet, hne2]
    | none =>
      rw [attachLoop, hres, ih]
      by_cases hname : a.filename = name
      · subst hname
        rw [hres]
        simp [List.any_cons]
      · have hbeq : (a.filename == name) = false := beq_eq_false_iff_ne.mpr hname
        simp [List.any_cons, hbeq]

/-! ## Sanitizer idempotence lemmas -/

theorem jsToLower_eq_self (c : Char) (h : c.toNat < 65 ∨ 90 < c.toNat) :
    jsToLower c = c := by
  unfold jsToLower
  rw [if_neg]
  simp only [Bool.and_eq_true, decide_eq_true_eq, charLe_iff, not_and]
  intro h1
  have hA : ('A').toNat = 65 := rfl
  have hZ : ('Z').toNat = 90 := rfl
  omega

theorem jsToLower_of_upper (c : Char) (h1 : 65 ≤ c.toNat) (h2 : c.toNat ≤ 90) :
    jsToLower c = Char.ofNat (c.toNat + 32) := by
  unfold jsToLower
  rw [if_pos]
  simp only [Bool.and_eq_true, decide_eq_true_eq, charLe_iff]
  have hA : ('A').toNat = 65 := rfl
  have hZ : ('Z').toNat = 90 := rfl
  omega

theorem hugoCharStep_idem (c : Char) :
    jsToLower (sanitizeChar isHugoNameChar (jsToLower (sanitizeChar isHugoNameChar c))) =
      jsToLower (sanitizeChar isHugoNameChar c) := by
  by_cases hk : isHugoNameChar c = true
  · have hsan : sanitizeChar isHugoNameChar c = c := by simp [sanitizeChar, hk]
    rw [hsan]
    have hcls := hk
    simp only [isHugoNameChar, Bool.or_eq_true, Bool.and_eq_true, decide_eq_true_eq,
      charLe_iff, decide_eq_true_eq] at hcls
    have ha : ('a').toNat = 97 := rfl
    have hz : ('z').toNat = 122 := rfl
    have hA : ('A').toNat = 65 := rfl
    have hZ : ('Z').toNat = 90 := rfl
    have h0 : ('0').toNat = 48 := rfl
    have h9 : ('9').toNat = 57 := rfl
    rcases hcls with ((hlow | hup) | hdig) | hdash
    · have hlc : jsToLower c = c := jsToLower_eq_self c (by omega)
      rw [hlc, hsan, hlc]
    · have hlc : jsToLower c = Char.ofNat (c.toNat + 32) := jsToLower_of_upper c (by omega) (by omega)
      have hdn : (Char.ofNat (c.toNat + 32)).toNat = c.toNat + 32 :=
        toNat_ofNat_valid _ (by omega)
      have hkeep : isHugoNameChar (Char.ofNat (c.toNat + 32)) = true := by
        simp only [isHugoNameChar, Bool.or_eq_true, Bool.and_eq_true, decide_eq_true_eq,
          charLe_iff]
        left
        left
        left
        rw [hdn, ha, hz]
        omega
      have hsan2 : sanitizeChar isHugoNameChar (Char.ofNat (c.toNat + 32)) =
          Char.ofNat (c.toNat + 32) := by simp [sanitizeChar, hkeep]
      have hlc2 : jsToLower (Char.ofNat (c.toNat + 32)) = Char.ofNat (c.toNat + 32) :=
        jsToLower_eq_self _ (by rw [hdn]; omega)
      rw [hlc, hsan2, hlc2]
    · have hlc : jsToLower c = c := jsToLower_eq_self c (by omega)
      rw [hlc, hsan, hlc]
    · subst hdash
      decide
  · have hsan : sanitizeChar isHugoNameChar c = '-' := by
      simp [sanitizeChar, hk]
    rw [hsan]
    decide

theorem attachCharStep_idem (c : Char) :
    jsToLower (sanitizeChar isAttachNameChar (jsToLower (sanitizeChar isAttachNameChar c))) =
      jsToLower (sanitizeChar isAttachNameChar c) := by
  by_cases hk : isAttachNameChar c = true
  · have hsan : sanitizeChar isAttachNameChar c = c := by simp [sanitizeChar, hk]
    rw [hsan]
    have hcls := hk
    simp only [isAttachNameChar, isHugoNameChar, Bool.or_eq_true, Bool.and_eq_true,
      decide_eq_true_eq, charLe_iff] at hcls
    have ha : ('a').toNat = 97 := rfl
    have hz : ('z').toNat = 122 := rfl
    have hA : ('A').toNat = 65 := rfl
    have hZ : ('Z').toNat = 90 := rfl
    have h0 : ('0').toNat = 48 := rfl
    have h9 : ('9').toNat = 57 := rfl
    rcases hcls with (((hlow | hup) | hdig) | hdash) | hdot
    · have hlc : jsToLower c = c := jsToLower_eq_self c (by omega)
      rw [hlc, hsan, hlc]
    · have hlc : jsToLower c = Char.ofNat (c.toNat + 32) := jsToLower_of_upper c (by omega) (by omega)
      have hdn : (Char.ofNat (c.toNat + 32)).toNat = c.toNat + 32 :=
        toNat_ofNat_valid _ (by omega)
      have hkeep : isAttachNameChar (Char.ofNat (c.toNat + 32)) = true := by
        simp only [isAttachNameChar, isHugoNameChar, Bool.or_eq_true, Bool.and_eq_true,
          decide_eq_true_eq, charLe_iff]
        left
        left
        left
        left
        rw [hdn, ha, hz]
        omega
      have hsan2 : sanitizeChar isAttachNameChar (Char.ofNat (c.toNat + 32)) =
          Char.ofNat (c.toNat + 32) := by simp [sanitizeChar, hkeep]
      have hlc2 : jsToLower (Char.ofNat (c.toNat + 32)) = Char.ofNat (c.toNat + 32) :=
        jsToLower_eq_self _ (by rw [hdn]; omega)
      rw [hlc, hsan2, hlc2]
    · have hlc : jsToLower c = c := jsToLower_eq_self c (by omega)
      rw [hlc, hsan, hlc]
    · subst hdash
      decide
    · have hc : c = '.' := hdot
      subst hc
      decide
  · have hsan : sanitizeChar isAttachNameChar c = '-' := by
      simp [sanitizeChar, hk]
    rw [hsan]
    decide

/-- Auxiliary: raw string data of a constructed string. -/
theorem data_mk (l : List Char) : (String.mk l).data = l := rfl

/-- Auxiliary: the extension retry loop is a first-success search over the
extension list. -/
theorem tryExtensions_eq_findSome (v : Vault) (filename : String) :
    ∀ exts : List String,
      tryExtensions v filename exts =
        exts.findSome? (fun ext => asTFile (v.getAbstractFileByPath (filename ++ "." ++ ext))) := by
  intro exts
  induction exts with
  | nil => rfl
  | cons e rest ih =>
    rw [tryExtensions, List.findSome?_cons]
    cases asTFile (v.getAbstractFileByPath (filename ++ "." ++ e)) with
    | some t => rfl
    | none => exact ih

/-- C9: the filename sanitization (replace characters outside the kept class
with a dash, then lower-case) is idempotent, both for the document-name
variant and for the attachment-name variant that additionally keeps dots. -/
theorem claim_C9_sanitize_idempotent (x : String) :
    sanitizeBasename (sanitizeBasename x) = sanitizeBasename x ∧
      sanitizeAttachmentName (sanitizeAttachmentName x) = sanitizeAttachmentName x := by
  constructor
  · unfold sanitizeBasename
    rw [data_mk]
    congr 1
    simp only [List.map_map]
    apply List.map_congr_left
    intro c _
    simp only [Function.comp]
    exact hugoCharStep_idem c
  · unfold sanitizeAttachmentName
    rw [data_mk]
    congr 1
    simp only [List.map_map]
    apply List.map_congr_left
    intro c _
    simp only [Function.comp]
    exact attachCharStep_idem c

/-- C10: the shortcode serializer omits attributes whose value is the number
zero or the empty string, exactly as it omits absent ones, for width, height,
alt, link and caption; and the pipe modifier `0` indeed produces a parsed
width of zero. -/
theorem claim_C10_falsy_attributes_omitted (o : FigureOptions) :
    buildFigureShortcode { o with width := some 0 } =
        buildFigureShortcode { o with width := none } ∧
      buildFigureShortcode { o with height := some 0 } =
        buildFigureShortcode { o with height := none } ∧
      buildFigureShortcode { o with alt := some "" } =
        buildFigureShortcode { o with alt := none } ∧
      buildFigureShortcode { o with link := some "" } =
        buildFigureShortcode { o with link := none } ∧
      buildFigureShortcode { o with caption := some "" } =
        buildFigureShortcode { o with caption := none } ∧
      (parsePipeContent (some "0")).dimensions = some { width := 0, height := none } := by
  refine ⟨?_, ?_, ?_, ?_, ?_, ?_⟩
  · rfl
  · rfl
  · rfl
  · rfl
  · rfl
  · decide

/-- C2: an external image reference `![cap|500](http://x/y.jpg)` with the CDN
transform enabled and site base URL `https://site.com` is rewritten to a
directive with exactly `src`, `link`, `alt` in that order, the `src` being
the Cloudflare transform URL with `width=500` folded in, and no separate
width or height attributes. -/
theorem claim_C2_external_cdn_rewrite (settings : HugoExportSettings)
    (h1 : settings.enableCloudflareImages = true)
    (h2 : settings.siteBaseUrl = "https://site.com") :
    convertExternalImages settings "![cap|500](http://x/y.jpg)" =
      "\x7b\x7b< figure src=\"https://site.com/cdn-cgi/image/fit=scale-down,width=500/http://x/y.jpg\" link=\"http://x/y.jpg\" alt=\"cap\" >\x7d\x7d" := by
  obtain ⟨p1, p2, p3, p4, p5, p6⟩ := settings
  simp only at h1 h2
  subst h1
  subst h2
  rfl

/-- Witness for C2 at a fully concrete settings value. -/
theorem claim_C2_external_cdn_rewrite_witness :
    convertExternalImages
        { hugoExportPath := "out", hugoAttachmentsPath := "", hugoAttachmentsUrl := "/images",
          defaultAuthor := "", enableCloudflareImages := true,
          siteBaseUrl := "https://site.com" }
        "![cap|500](http://x/y.jpg)" =
      "\x7b\x7b< figure src=\"https://site.com/cdn-cgi/image/fit=scale-down,width=500/http://x/y.jpg\" link=\"http://x/y.jpg\" alt=\"cap\" >\x7d\x7d" :=
  claim_C2_external_cdn_rewrite _ rfl rfl

/-- C5: attachment resolution is the ordered composition of (a) exact store
lookup, (b) the fixed extension list tried only for extension-less names, and
(c) the store's link resolution; the first success wins and exhausting all
three yields `none` rather than an error. -/
theorem claim_C5_resolution_order (v : Vault) (filename : String) (sourceFile : TFile) :
    resolveAttachmentPath v filename sourceFile =
      (asTFile (v.getAbstractFileByPath filename)).orElse (fun _ =>
        (if hasExtension filename then none
         else resolveExtensions.findSome? (fun ext =>
           asTFile (v.getAbstractFileByPath (filename ++ "." ++ ext)))).orElse (fun _ =>
          v.getFirstLinkpathDest filename sourceFile.path)) := by
  unfold resolveAttachmentPath
  cases asTFile (v.getAbstractFileByPath filename) with
  | some t => rfl
  | none =>
    rw [tryExtensions_eq_findSome]
    cases hext : hasExtension filename with
    | true =>
      simp [Option.orElse]
    | false =>
      simp only [if_neg (by simp [hext] : ¬hasExtension filename = true), Option.orElse]
      cases resolveExtensions.findSome? (fun ext =>
          asTFile (v.getAbstractFileByPath (filename ++ "." ++ ext))) with
      | some t => rfl
      | none => rfl

/-! ## Tag collection lemmas -/

/-- Auxiliary: `extractTags` unfolded. -/
theorem extractTags_eq (fm : Frontmatter) (body : String) :
    extractTags fm body =
      List.insertionSort strLe (inlineTagsFold body (fmTagsFold fm [])) := rfl

/-- Auxiliary: membership in the frontmatter fold. -/
theorem mem_fmTagsFold (fm : Frontmatter) (init : List String) (x : String) :
    x ∈ fmTagsFold fm init ↔ x ∈ init ∨ x ∈ fmTagsList fm := by
  unfold fmTagsFold fmTagsList
  cases htags : fm.tags with
  | none => simp [jsTruthyTags]
  | some tv =>
    cases tv with
    | arr ts =>
      simp only [jsTruthyTags, if_pos]
      rw [mem_foldl_jsSetAdd (fun t => t ≠ "") (fun t => t) ts init x]
      constructor
      · intro h
        rcases h with h | ⟨m, hm, hne, he⟩
        · exact Or.inl h
        · exact Or.inr (List.mem_filter.mpr ⟨he ▸ hm, by subst he; simpa using hne⟩)
      · intro h
        rcases h with h | h
        · exact Or.inl h
        · obtain ⟨hmem, hne⟩ := List.mem_filter.mp h
          exact Or.inr ⟨x, hmem, by simpa using hne, rfl⟩
    | str t =>
      by_cases ht : t = ""
      · subst ht
        simp [jsTruthyTags]
      · rw [if_pos (by simp [jsTruthyTags, ht])]
        rw [mem_jsSetAdd]
        simp [ht]

/-- Auxiliary: the frontmatter fold preserves duplicate-freedom. -/
theorem nodup_fmTagsFold (fm : Frontmatter) (init : List String) (h : init.Nodup) :
    (fmTagsFold fm init).Nodup := by
  unfold fmTagsFold
  cases htags : fm.tags with
  | none => simpa [jsTruthyTags] using h
  | some tv =>
    cases tv with
    | arr ts =>
      simp only [jsTruthyTags, if_pos]
      exact nodup_foldl_jsSetAdd (fun t => t ≠ "") (fun t => t) ts init h
    | str t =>
      by_cases ht : t = ""
      · subst ht; simpa [jsTruthyTags] using h
      · rw [if_pos (by simp [jsTruthyTags, ht])]
        exact nodup_jsSetAdd init t h

/-- Auxiliary: membership in the collected (pre-sort) tag set. -/
theorem mem_extractTags (fm : Frontmatter) (body : String) (x : String) :
    x ∈ extractTags fm body ↔
      x ∈ fmTagsList fm ∨
        ∃ p ∈ tagMatches body.data,
          includeTagCond body.data p.1 p.2.length = true ∧ String.mk p.2 = x := by
  rw [extractTags_eq, (List.perm_insertionSort strLe _).mem_iff]
  unfold inlineTagsFold
  rw [mem_foldl_jsSetAdd (fun m => includeTagCond body.data m.1 m.2.length = true)
    (fun m => String.mk m.2) (tagMatches body.data) (fmTagsFold fm []) x]
  rw [mem_fmTagsFold]
  simp

/-- Auxiliary: the heading-exclusion condition, stated as the negated triple
conjunction. -/
theorem includeTagCond_iff (body : List Char) (i len : Nat) :
    includeTagCond body i len = true ↔
      ¬(i ≠ 0 ∧ body.get? (i - 1) = some '\n' ∧ body.get? (i + 1 + len) = some ' ') := by
  unfold includeTagCond
  simp only [Bool.or_eq_true, Bool.not_eq_true', beq_iff_eq, beq_eq_false_iff_ne]
  tauto

/-- C4: an inline-tag match is included in the collected tag set exactly
unless all three hold: the match is not at position zero, the preceding
character is a newline, and the character after the whole match is a space;
stated as a full membership characterization of `extractTags`. -/
theorem claim_C4_inline_tag_inclusion (fm : Frontmatter) (body : String) (t : String) :
    t ∈ extractTags fm body ↔
      t ∈ fmTagsList fm ∨
        ∃ p ∈ tagMatches body.data,
          ¬(p.1 ≠ 0 ∧ body.data.get? (p.1 - 1) = some '\n' ∧
              body.data.get? (p.1 + 1 + p.2.length) = some ' ') ∧
            String.mk p.2 = t := by
  rw [mem_extractTags]
  apply or_congr Iff.rfl
  apply exists_congr
  intro p
  apply and_congr_right
  intro _
  exact and_congr_left (fun _ => includeTagCond_iff body.data p.1 p.2.length)

/-- Witness for C4: the tag in `a #b` is included (not at line start), via
the characterization applied at a concrete body. -/
theorem claim_C4_inline_tag_inclusion_witness :
    "b" ∈ extractTags {} "a #b" ∧ "tag" ∉ extractTags {} "x\n#tag y" := by
  constructor
  · exact (claim_C4_inline_tag_inclusion {} "a #b" "b").mpr
      (Or.inr ⟨(2, ['b']), by decide, by decide, rfl⟩)
  · intro hmem
    have h := (claim_C4_inline_tag_inclusion {} "x\n#tag y" "tag").mp hmem
    rcases h with h | ⟨p, hp, hcond, heq⟩
    · simp [fmTagsList] at h
    · have hlist : tagMatches ("x\n#tag y").data = [(2, ['t', 'a', 'g'])] := by decide
      rw [hlist] at hp
      have hp2 : p = (2, ['t', 'a', 'g']) := by simpa using hp
      subst hp2
      revert hcond
      decide

/-- C8 counterexample: a frontmatter whose `tags` field is the empty scalar
string contributes nothing (it is falsy), so the collected result omits it,
contrary to the claim that a scalar string always contributes that one
string. -/
theorem claim_C8_counterexample :
    extractTags { tags := some (TagsValue.str "") } "" = [] ∧
      "" ∉ extractTags { tags := some (TagsValue.str "") } "" := by
  constructor
  · rfl
  · decide

/-- C8 (amended): the collected tag result is duplicate-free and sorted
ascending in the lexicographic order; a sequence `tags` field contributes
each non-empty entry and a scalar `tags` field contributes that one string
when it is non-empty; frontmatter tags `b, a, a` with no inline tags yield
`a, b`. -/
theorem claim_C8_amended :
    (∀ (fm : Frontmatter) (body : String),
        (extractTags fm body).Pairwise (fun a b => strLe a b ∧ a ≠ b)) ∧
      (∀ (fm : Frontmatter) (body : String) (l : List String) (t : String),
        fm.tags = some (TagsValue.arr l) → t ∈ l → t ≠ "" →
          t ∈ extractTags fm body) ∧
      (∀ (fm : Frontmatter) (body : String) (s : String),
        fm.tags = some (TagsValue.str s) → s ≠ "" →
          s ∈ extractTags fm body) ∧
      extractTags { tags := some (TagsValue.arr ["b", "a", "a"]) } "" = ["a", "b"] := by
  refine ⟨?_, ?_, ?_, ?_⟩
  · intro fm body
    rw [extractTags_eq]
    have hnd : (inlineTagsFold body (fmTagsFold fm [])).Nodup := by
      unfold inlineTagsFold
      exact nodup_foldl_jsSetAdd _ _ _ _ (nodup_fmTagsFold fm [] List.nodup_nil)
    have hsorted : List.Sorted strLe
        (List.insertionSort strLe (inlineTagsFold body (fmTagsFold fm []))) :=
      List.sorted_insertionSort strLe _
    have hnd2 : (List.insertionSort strLe (inlineTagsFold body (fmTagsFold fm []))).Nodup :=
      (List.perm_insertionSort strLe _).nodup_iff.mpr hnd
    exact List.Pairwise.and hsorted hnd2
  · intro fm body l t htags hmem hne
    rw [mem_extractTags]
    left
    unfold fmTagsList
    rw [htags]
    exact List.mem_filter.mpr ⟨hmem, by simpa using hne⟩
  · intro fm body s htags hne
    rw [mem_extractTags]
    left
    unfold fmTagsList
    rw [htags]
    show s ∈ (if s = "" then [] else [s])
    rw [if_neg hne]
    exact List.mem_singleton.mpr rfl
  · decide

/-- Witness for C8 at concrete frontmatter values. -/
theorem claim_C8_amended_witness :
    "x" ∈ extractTags { tags := some (TagsValue.arr ["x", ""]) } "" ∧
      "y" ∈ extractTags { tags := some (TagsValue.str "y") } "" :=
  ⟨claim_C8_amended.2.1 _ "" ["x", ""] "x" rfl (by decide) (by decide),
   claim_C8_amended.2.2.1 _ "" "y" rfl (by decide)⟩

/-- C3 counterexample: with the CDN transform enabled but no site base URL
configured, the code keys the width/height omission on the toggle alone, so
the parsed dimensions 500x300 are dropped from the directive instead of
passing through as the claim states. -/
theorem claim_C3_counterexample :
    convertExternalImages
        { hugoExportPath := "out", hugoAttachmentsPath := "", hugoAttachmentsUrl := "/images",
          defaultAuthor := "", enableCloudflareImages := true, siteBaseUrl := "" }
        "![a|500x300](u.jpg)" =
      "\x7b\x7b< figure src=\"u.jpg\" alt=\"a\" >\x7d\x7d" ∧
      convertExternalImages
          { hugoExportPath := "out", hugoAttachmentsPath := "", hugoAttachmentsUrl := "/images",
            defaultAuthor := "", enableCloudflareImages := true, siteBaseUrl := "" }
          "![a|500x300](u.jpg)" ≠
        "\x7b\x7b< figure src=\"u.jpg\" alt=\"a\" width=\"500\" height=\"300\" >\x7d\x7d" := by
  constructor
  · rfl
  · decide

/-- C3 (amended): for a reference carrying parsed dimensions, when the CDN
transform is disabled the built figure spec keeps src unchanged, has no link
and passes width/height through; when the transform is enabled but no site
base URL is configured, src is still unchanged and no link is emitted, but
width and height are omitted, for both the internal-embed and the
external-image builders. -/
theorem claim_C3_amended (settings : HugoExportSettings) (info : AttachmentInfo)
    (pipe url hugoImagePath : String) (alt : Option String) (d : ParsedDimensions)
    (hoff : settings.enableCloudflareImages = false ∨ settings.siteBaseUrl = "")
    (hd : (parsePipeContent (some pipe)).dimensions = some d) :
    ((embedFigureOptions settings info (some pipe) hugoImagePath).src =
        hugoImagePath ++ "/" ++ info.newFilename ∧
      (embedFigureOptions settings info (some pipe) hugoImagePath).link = none ∧
      (embedFigureOptions settings info (some pipe) hugoImagePath).width =
        (if settings.enableCloudflareImages then none else some d.width) ∧
      (embedFigureOptions settings info (some pipe) hugoImagePath).height =
        (if settings.enableCloudflareImages then none else d.height)) ∧
      ((extFigureOptions settings alt (some d) url).src = url ∧
        (extFigureOptions settings alt (some d) url).link = none ∧
        (extFigureOptions settings alt (some d) url).width =
          (if settings.enableCloudflareImages then none else some d.width) ∧
        (extFigureOptions settings alt (some d) url).height =
          (if settings.enableCloudflareImages then none else d.height)) := by
  have hcond : ¬(settings.enableCloudflareImages = true ∧ ¬settings.siteBaseUrl = "") := by
    rcases hoff with h | h
    · rintro ⟨h1, _⟩
      rw [h] at h1
      cases h1
    · rintro ⟨_, h2⟩
      exact h2 h
  refine ⟨⟨?_, ?_, ?_, ?_⟩, ⟨?_, ?_, ?_, ?_⟩⟩ <;>
    simp [embedFigureOptions, extFigureOptions, hcond, hd]

/-- Witness for C3 (amended) with the transform disabled and pipe modifier
500x300. -/
theorem claim_C3_amended_witness :
    (embedFigureOptions
        { hugoExportPath := "out", hugoAttachmentsPath := "att", hugoAttachmentsUrl := "/images",
          defaultAuthor := "", enableCloudflareImages := false, siteBaseUrl := "" }
        { newFilename := "f.png", caption := none } (some "500x300") "/images").width =
      some 500 ∧
      (extFigureOptions
          { hugoExportPath := "out", hugoAttachmentsPath := "att", hugoAttachmentsUrl := "/images",
            defaultAuthor := "", enableCloudflareImages := false, siteBaseUrl := "" }
          none (some { width := 500, height := some 300 }) "u.jpg").src = "u.jpg" :=
  ⟨(claim_C3_amended _ _ "500x300" "u.jpg" "/images" none { width := 500, height := some 300 }
      (Or.inl rfl) rfl).1.2.2.1,
   (claim_C3_amended _ { newFilename := "f.png", caption := none } "500x300" "u.jpg" "/images"
      none { width := 500, height := some 300 } (Or.inl rfl) rfl).2.1⟩

/-- C6 counterexample: a body embedding `a.png` twice triggers two
resolve-and-copy builds of the same ResolvedAttachment, not one per distinct
source name as the claim states (the loop iterates over occurrences without
deduplication). -/
theorem claim_C6_counterexample :
    (attachPhase vaultWithAPng (fun _ => none) ⟨"n.md", "n.md", "n"⟩
        "![[a.png]] ![[a.png]]").copies = ["a.png", "a.png"] ∧
      (attachPhase vaultWithAPng (fun _ => none) ⟨"n.md", "n.md", "n"⟩
          "![[a.png]] ![[a.png]]").copies.length ≠ 1 := by
  constructor
  · rfl
  · decide

/-- C6 (amended): the resolve-and-copy of an attachment runs once per embed
occurrence in the raw body (in order, one copy per occurrence whose name
resolves), not once per distinct name; the AttachmentMap nevertheless ends up
with exactly one entry per distinct embedded name that resolves, holding the
deterministic sanitized filename and extracted caption. -/
theorem claim_C6_amended (v : Vault) (captionOf : TFile → Option String)
    (sourceFile : TFile) (content : String) :
    (attachPhase v captionOf sourceFile content).copies =
        ((findAttachments content).filter
          (fun a => (resolveAttachmentPath v a.filename sourceFile).isSome)).map
          ParsedInternalImage.filename ∧
      ∀ name : String,
        mapGet (attachPhase v captionOf sourceFile content).map name =
          if (findAttachments content).any (fun a => a.filename == name) then
            (resolveAttachmentPath v name sourceFile).map (copyAttachment captionOf)
          else none := by
  constructor
  · unfold attachPhase
    rw [attachLoop_copies]
    rfl
  · intro name
    unfold attachPhase
    rw [attachLoop_map_get]
    by_cases hany : (findAttachments content).any (fun a => a.filename == name) = true
    · rw [if_pos hany]
      cases hres : resolveAttachmentPath v name sourceFile with
      | some tf => rw [if_pos (by rw [hany]; rfl)]
      | none =>
        rw [if_neg (by rw [hany]; simp)]
        rfl
    · have hany2 : (findAttachments content).any (fun a => a.filename == name) = false := by
        simpa using hany
      rw [if_neg (by rw [hany2]; simp)]
      rw [if_neg (by rw [hany2]; simp)]
      rfl

/-- C7: an internal embed whose name resolution exhausts all strategies is
recovered locally: one warning per unresolved occurrence, no AttachmentMap
entry for the name, the rewriter leaves the matched text unchanged when the
map has no entry, and a concrete export with a missing attachment still
completes with the reference byte-identical in the body. -/
theorem claim_C7_missing_attachment (v : Vault) (captionOf : TFile → Option String)
    (sourceFile : TFile) (content : String) (name : String)
    (settings : HugoExportSettings) (attachmentMap : List (String × AttachmentInfo))
    (hugoImagePath : String) (em : EmbedMatch) :
    ((attachPhase v captionOf sourceFile content).warnings =
        ((findAttachments content).filter
          (fun a => (resolveAttachmentPath v a.filename sourceFile).isNone)).map
          ParsedInternalImage.filename) ∧
      (resolveAttachmentPath v name sourceFile = none →
        mapGet (attachPhase v captionOf sourceFile content).map name = none) ∧
      (mapGet attachmentMap (String.mk em.name) = none →
        embedReplace settings attachmentMap hugoImagePath em = em.raw) ∧
      (exportToHugoContent
          { hugoExportPath := "out", hugoAttachmentsPath := "att",
            hugoAttachmentsUrl := "/images", defaultAuthor := "",
            enableCloudflareImages := false, siteBaseUrl := "" }
          (emptyVault "![[missing.png]]") (fun _ => none) (fun _ => none) "D"
          ⟨"n.md", "n.md", "n"⟩ =
        some ("---\ntitle: \"n\"\ndate: D\nauthor: Unknown\ndraft: false\n---\n\n![[missing.png]]",
          ⟨[], [], ["missing.png"]⟩)) := by
  refine ⟨?_, ?_, ?_, ?_⟩
  · unfold attachPhase
    rw [attachLoop_warnings]
    rfl
  · intro hres
    unfold attachPhase
    rw [attachLoop_map_get]
    rw [if_neg (by rw [hres]; simp)]
    rfl
  · intro hget
    unfold embedReplace
    rw [hget]
  · rfl

/-- Witness for C7: the hypotheses discharged at a concrete missing
attachment. -/
theorem claim_C7_missing_attachment_witness :
    mapGet (attachPhase (emptyVault "![[missing.png]]") (fun _ => none) ⟨"n.md", "n.md", "n"⟩
        "![[missing.png]]").map "missing.png" = none ∧
      embedReplace
          { hugoExportPath := "out", hugoAttachmentsPath := "att",
            hugoAttachmentsUrl := "/images", defaultAuthor := "",
            enableCloudflareImages := false, siteBaseUrl := "" }
          [] "/images" ⟨("![[missing.png]]").data, ("missing.png").data, none⟩ =
        ("![[missing.png]]").data :=
  ⟨(claim_C7_missing_attachment (emptyVault "![[missing.png]]") (fun _ => none)
      ⟨"n.md", "n.md", "n"⟩ "![[missing.png]]" "missing.png"
      { hugoExportPath := "out", hugoAttachmentsPath := "att", hugoAttachmentsUrl := "/images",
        defaultAuthor := "", enableCloudflareImages := false, siteBaseUrl := "" }
      [] "/images" ⟨("![[missing.png]]").data, ("missing.png").data, none⟩).2.1 (by decide),
   (claim_C7_missing_attachment (emptyVault "![[missing.png]]") (fun _ => none)
      ⟨"n.md", "n.md", "n"⟩ "![[missing.png]]" "missing.png"
      { hugoExportPath := "out", hugoAttachmentsPath := "att", hugoAttachmentsUrl := "/images",
        defaultAuthor := "", enableCloudflareImages := false, siteBaseUrl := "" }
      [] "/images" ⟨("![[missing.png]]").data, ("missing.png").data, none⟩).2.2.1 rfl⟩

/-! ## Frame lemmas for the no-image, no-frontmatter document -/

/-- Auxiliary: with no inline-tag matches, the empty frontmatter collects no
tags. -/
theorem extractTags_empty (body : String) (h : tagMatches body.data = []) :
    extractTags {} body = [] := by
  rw [extractTags_eq]
  unfold inlineTagsFold
  rw [h]
  rfl

/-- Auxiliary: a document with no leading frontmatter block and no inline
tags is assembled as the four-field header followed by the untouched body. -/
theorem convertToHugo_no_fm_no_tags (yamlLoad : String → Option Frontmatter) (now : String)
    (settings : HugoExportSettings) (content basename : String)
    (hfm : fmSplit content.data = none) (htags : tagMatches content.data = []) :
    convertToHugo yamlLoad now settings content basename =
      "---\ntitle: \"" ++ basename ++ "\"\ndate: " ++ now ++ "\nauthor: " ++
        jsOr settings.defaultAuthor "Unknown" ++ "\ndraft: false\n" ++ "---\n\n" ++ content := by
  simp only [convertToHugo, hfm]
  rw [extractTags_empty content htags]
  simp only [List.length_nil, gt_iff_lt, Nat.lt_irrefl, if_false, jsOrOpt]

/-- C1 (amended): for a document whose raw text has no frontmatter delimiter
block at the start, no internal-embed, external-link or img-markup matches,
and additionally no inline-tag matches, the exported body is byte-identical
to the raw text and the generated header exposes exactly title, date, author
and draft, with no attachment activity. -/
theorem claim_C1_amended (settings : HugoExportSettings) (v : Vault)
    (captionOf : TFile → Option String) (yamlLoad : String → Option Frontmatter)
    (now : String) (file : TFile) (raw : String)
    (hraw : v.read file = raw)
    (hexp : ¬settings.hugoExportPath = "")
    (hfm : fmSplit raw.data = none)
    (hembed : jsMatchList embedTryMatch raw.data = [])
    (hext : jsMatchList extTryMatch raw.data = [])
    (himg : jsMatchList imgTryMatch raw.data = [])
    (htags : tagMatches raw.data = []) :
    exportToHugoContent settings v captionOf yamlLoad now file =
      some ("---\ntitle: \"" ++ file.basename ++ "\"\ndate: " ++ now ++ "\nauthor: " ++
          jsOr settings.defaultAuthor "Unknown" ++ "\ndraft: false\n" ++ "---\n\n" ++ raw,
        ⟨[], [], []⟩) := by
  have hCAL : ∀ (m : List (String × AttachmentInfo)) (u : String),
      convertAttachmentLinks settings raw m u = raw := by
    intro m u
    unfold convertAttachmentLinks
    rw [jsScan_of_nil _ _ _ hembed]
  have hExt : convertExternalImages settings raw = raw := by
    unfold convertExternalImages
    rw [jsScan_of_nil _ _ _ hext]
  have hImg : convertHtmlImages settings raw = raw := by
    unfold convertHtmlImages
    rw [jsScan_of_nil _ _ _ himg]
  have hFind : findAttachments raw = [] := by
    unfold findAttachments
    rw [hembed]
    rfl
  have hapr : attachPhase v captionOf file raw = ⟨[], [], []⟩ := by
    unfold attachPhase
    rw [hFind]
    rfl
  simp only [exportToHugoContent, hraw, if_neg hexp]
  by_cases hpath : settings.hugoAttachmentsPath = ""
  · rw [if_neg (fun h => h hpath)]
    rw [hExt, hImg]
    rw [convertToHugo_no_fm_no_tags yamlLoad now settings raw file.basename hfm htags]
  · rw [if_pos hpath]
    rw [hapr, hCAL, hExt, hImg]
    rw [convertToHugo_no_fm_no_tags yamlLoad now settings raw file.basename hfm htags]

/-- Witness for C1 (amended) on the one-word document `hello`. -/
theorem claim_C1_amended_witness :
    exportToHugoContent
        { hugoExportPath := "out", hugoAttachmentsPath := "", hugoAttachmentsUrl := "/images",
          defaultAuthor := "me", enableCloudflareImages := false, siteBaseUrl := "" }
        (emptyVault "hello") (fun _ => none) (fun _ => none) "D" ⟨"n.md", "n.md", "n"⟩ =
      some ("---\ntitle: \"n\"\ndate: D\nauthor: me\ndraft: false\n---\n\nhello",
        ⟨[], [], []⟩) :=
  claim_C1_amended _ _ _ _ _ _ "hello" rfl (by decide) rfl rfl rfl rfl rfl

/-- C1 counterexample: the document `#x` has no frontmatter block and no
image references of any of the three grammars, yet its inline tag makes the
generated header expose a fifth field (`tags`), so the header is not exactly
the four claimed fields (the body itself stays byte-identical). -/
theorem claim_C1_counterexample :
    fmSplit ("#x" : String).data = none ∧
      jsMatchList embedTryMatch ("#x" : String).data = [] ∧
      jsMatchList extTryMatch ("#x" : String).data = [] ∧
      jsMatchList imgTryMatch ("#x" : String).data = [] ∧
      exportToHugoContent
          { hugoExportPath := "out", hugoAttachmentsPath := "", hugoAttachmentsUrl := "/images",
            defaultAuthor := "me", enableCloudflareImages := false, siteBaseUrl := "" }
          (emptyVault "#x") (fun _ => none) (fun _ => none) "D" ⟨"n.md", "n.md", "n"⟩ =
        some ("---\ntitle: \"n\"\ndate: D\nauthor: me\ndraft: false\ntags:\n  - x\n---\n\n#x",
          ⟨[], [], []⟩) ∧
      exportToHugoContent
          { hugoExportPath := "out", hugoAttachmentsPath := "", hugoAttachmentsUrl := "/images",
            defaultAuthor := "me", enableCloudflareImages := false, siteBaseUrl := "" }
          (emptyVault "#x") (fun _ => none) (fun _ => none) "D" ⟨"n.md", "n.md", "n"⟩ ≠
        some ("---\ntitle: \"n\"\ndate: D\nauthor: me\ndraft: false\n---\n\n#x",
          ⟨[], [], []⟩) := by
  refine ⟨rfl, rfl, rfl, rfl, rfl, ?_⟩
  decide
